import Mathlib

/-!
# Verification development for the embedded JSON library (src/cJSON.c, src/cJSON.h)

Shallow embedding of the patched cJSON value library found in this repository:
the value-node tree model, the recursive-descent parser, the exact two-pass
serializer, the growable-buffer serializer (`printbuffer` / `ensure` /
`pow2gt`), duplication, and the public query helpers.

Modelling conventions:
* C byte strings are `List Nat` (byte values 0..255); reading one byte past the
  end of a NUL-terminated input yields the terminator `0`.
* Machine integers are `Nat`/`Int` with explicit wrap-around (`% 2^32`,
  `% 2^64`) where the C code can overflow; `int` bit patterns are `Nat < 2^32`
  in two's complement.
* Heap allocation is modelled as always succeeding (out-of-memory paths of the
  C code are not exercised by any claim below).
* Memory buffers written by pointer arithmetic are modelled positionally as
  functions `Nat → Option Nat` (`none` = uninitialised byte).
* `double` number payloads are carried as exact rationals (`ℚ`); the textual
  rendering done by `sprintf("%.15g"/"%.17g")` is host floating-point
  behaviour and is abstracted by `renderNumber` below.  No theorem in this
  file depends on the concrete digits that `renderNumber` produces.
-/

/-- `INT_MAX` for the 32-bit `int` used by the library. -/
def INT_MAX : Nat := 2 ^ 31 - 1

/-- Modulus of the 32-bit `int` bit patterns. -/
def UINT32_MOD : Nat := 2 ^ 32

/-- Modulus of `size_t` (64-bit) arithmetic. -/
def SIZE_T_MOD : Nat := 2 ^ 64

/-- cJSON.h type constants. -/
def cJSON_Invalid : Nat := 0
def cJSON_False : Nat := 1
def cJSON_True : Nat := 2
def cJSON_NULL : Nat := 4
def cJSON_Number : Nat := 8
def cJSON_String : Nat := 16
def cJSON_Array : Nat := 32
def cJSON_Object : Nat := 64
def cJSON_Raw : Nat := 128
def cJSON_IsReference : Nat := 256
def cJSON_StringIsConst : Nat := 512

mutual
/-- The value-node model of `struct cJSON`: `type`, `valuestring`, the member
key `string`, `valueint`, `valuedouble` and the ordered child chain
(`child`/`next` sibling pointers become an ordered list). -/
inductive CJson : Type where
  | mk (ty : Nat) (valuestring : Option (List Nat)) (keystr : Option (List Nat))
       (valueint : Int) (valuedouble : ℚ) (child : CJsonList)

/-- The sibling chain of child nodes. -/
inductive CJsonList : Type where
  | nil : CJsonList
  | cons (hd : CJson) (tl : CJsonList) : CJsonList
end

def CJson.ty : CJson → Nat
  | .mk t _ _ _ _ _ => t

def CJson.valuestring : CJson → Option (List Nat)
  | .mk _ v _ _ _ _ => v

def CJson.keystr : CJson → Option (List Nat)
  | .mk _ _ k _ _ _ => k

def CJson.valueint : CJson → Int
  | .mk _ _ _ i _ _ => i

def CJson.valuedouble : CJson → ℚ
  | .mk _ _ _ _ d _ => d

def CJson.child : CJson → CJsonList
  | .mk _ _ _ _ _ c => c

/-- A freshly `memset`-zeroed node, as produced by `cJSON_New_Item`. -/
def newItem : CJson := .mk 0 none none 0 0 .nil

def CJsonList.length : CJsonList → Nat
  | .nil => 0
  | .cons _ tl => 1 + tl.length

/-- C-string content of a byte list: the bytes before the first NUL
(`strlen`-delimited reads stop there). -/
def cstr (s : List Nat) : List Nat := s.takeWhile (· ≠ 0)

/-- Read byte `i` of a NUL-terminated buffer: past the end the terminator `0`
is read. -/
def getByte (input : List Nat) (i : Nat) : Nat := (input.get? i).getD 0

/-- Write one byte into a positional buffer. -/
def setCell (buf : Nat → Option Nat) (i b : Nat) : Nat → Option Nat :=
  fun j => if j = i then some b else buf j

/-- Write a run of bytes into a positional buffer starting at `i`. -/
def setCells (buf : Nat → Option Nat) (i : Nat) : List Nat → (Nat → Option Nat)
  | [] => buf
  | b :: rest => setCells (setCell buf i b) (i + 1) rest

/-- Read the C string starting at cell `i` of a positional buffer: bytes up to
the first NUL.  `none` if an uninitialised cell is reached (undefined C
behaviour) or `fuel` runs out. -/
def cStringFrom (buf : Nat → Option Nat) : Nat → Nat → Option (List Nat)
  | _, 0 => none
  | i, fuel + 1 =>
    match buf i with
    | none => none
    | some 0 => some []
    | some b => (cStringFrom buf (i + 1) fuel).map (b :: ·)

/-- Lowercase hex digits of `v`, zero-padded to at least four digits — the
output of `sprintf("%04x", v)` for an `unsigned int` argument. -/
def hex4LowerDigits (v : Nat) : List Nat :=
  let rec go (v : Nat) (fuel : Nat) (acc : List Nat) : List Nat :=
    match fuel with
    | 0 => acc
    | fuel + 1 =>
      if v = 0 then acc
      else
        let d := v % 16
        go (v / 16) fuel ((if d < 10 then 48 + d else 87 + d) :: acc)
  let ds := go v 8 []
  List.replicate (4 - ds.length) 48 ++ ds

/-- First pass of `print_string_ptr`: does this byte get the escape flag
(quote, backslash, the five named controls, or any byte below 32)? -/
def escFlag (c : Nat) : Bool :=
  c = 34 || c = 92 || c = 8 || c = 12 || c = 10 || c = 13 || c = 9 || c < 32

/-- Second pass of `print_string_ptr`: write the escaped rendering of the
C string `s` into the positional buffer `buf` starting at position `pos`,
returning the updated buffer and final write position.  This transcribes the
`while (*ptr)` loop, including the `sprintf((char*)ptr2, "u%04x", *ptr - 1)`
default case that renders the byte FOLLOWING the escaped one minus 1 (the
`int` argument is reduced mod 2^32 by the `%x` conversion) and advances the
cursor by exactly 5 regardless of how many digits were written. -/
def escapeLoop (buf : Nat → Option Nat) (pos : Nat) : List Nat → (Nat → Option Nat) × Nat
  | [] => (buf, pos)
  | 0 :: _ => (buf, pos)
  | c :: rest =>
    if 31 < c ∧ c ≠ 34 ∧ c ≠ 92 then
      escapeLoop (setCell buf pos c) (pos + 1) rest
    else
      let buf := setCell buf pos 92
      let pos := pos + 1
      if c = 92 then escapeLoop (setCell buf pos 92) (pos + 1) rest
      else if c = 34 then escapeLoop (setCell buf pos 34) (pos + 1) rest
      else if c = 8 then escapeLoop (setCell buf pos 98) (pos + 1) rest
      else if c = 12 then escapeLoop (setCell buf pos 102) (pos + 1) rest
      else if c = 10 then escapeLoop (setCell buf pos 110) (pos + 1) rest
      else if c = 13 then escapeLoop (setCell buf pos 114) (pos + 1) rest
      else if c = 9 then escapeLoop (setCell buf pos 116) (pos + 1) rest
      else
        let next := match rest with | [] => 0 | b :: _ => b
        let v : Nat := ((Int.ofNat next - 1) % (UINT32_MOD : Int)).toNat
        let digits := 117 :: hex4LowerDigits v ++ [0]
        escapeLoop (setCells buf pos digits) (pos + 5) rest

/-- `print_string_ptr(str, NULL)`: render the C string to an escaped, quoted
JSON string literal in a fresh exact-size allocation.  The first pass computes
the allocation size `len`; the second pass writes positionally; the result is
the C string read back from the allocation. -/
def print_string_ptr (str : Option (List Nat)) : Option (List Nat) :=
  match str with
  | none => some [34, 34]
  | some s =>
    let content := cstr s
    let len := 5 * (content.filter (fun c => escFlag c)).length + content.length + 3
    let buf : Nat → Option Nat := fun _ => none
    let buf := setCell buf 0 34
    let (buf, pos) := escapeLoop buf 1 content
    let buf := setCell buf pos 34
    let buf := setCell buf (pos + 1) 0
    cStringFrom buf 0 (len + 64)

/-- Abstraction of the `%.15g` / `%.17g` `sprintf` rendering of the stored
`double` (see file header: no theorem depends on these digits).  The
`(d * 0) != 0` NaN/infinity test of `print_number` is identically false on the
exact rational model, so the `"null"` branch is unreachable here. -/
def renderNumber (d : ℚ) : List Nat :=
  (toString d).toList.map Char.toNat

/-- `print_number(item, NULL)`: exact-size rendering of a number node. -/
def print_number (item : CJson) : Option (List Nat) :=
  some (renderNumber item.valuedouble)

/-- Concatenate rendered entries with the separator between consecutive
entries (the compose loop of `print_array`). -/
def joinEntries (entries : List (List Nat)) (sep : List Nat) : List Nat :=
  match entries with
  | [] => []
  | [e] => e
  | e :: rest => e ++ sep ++ joinEntries rest sep

/-- Compose loop of `print_object`: per member, `depth` tabs (pretty), the
key, `:`, one tab (pretty), the value, a comma unless last, a newline
(pretty). -/
def objectBody (pairs : List (List Nat × List Nat)) (depth : Nat) (fmt : Bool) :
    List Nat :=
  match pairs with
  | [] => []
  | (nm, e) :: rest =>
    (if fmt then List.replicate depth 9 else []) ++ nm ++ [58] ++
      (if fmt then [9] else []) ++ e ++
      (if rest.isEmpty then [] else [44]) ++ (if fmt then [10] else []) ++
      objectBody rest depth fmt

mutual
/-- `print_value(item, depth, fmt, NULL)`: exact two-pass serializer dispatch.
An unrecognised low type byte leaves `out == NULL`; a Raw node with a NULL
`valuestring` calls `strlen(NULL)` (undefined behaviour), modelled as
failure.  The container cases inline the `item->child` read of
`print_array`/`print_object`. -/
def print_value (item : CJson) (depth : Nat) (fmt : Bool) : Option (List Nat) :=
  match item with
  | .mk ty vs _ _ vd children =>
    let t := ty &&& 255
    if t = cJSON_NULL then some [110, 117, 108, 108]
    else if t = cJSON_False then some [102, 97, 108, 115, 101]
    else if t = cJSON_True then some [116, 114, 117, 101]
    else if t = cJSON_Number then some (renderNumber vd)
    else if t = cJSON_Raw then
      match vs with
      | none => none
      | some s => some (cstr s)
    else if t = cJSON_String then print_string_ptr vs
    else if t = cJSON_Array then print_array children depth fmt
    else if t = cJSON_Object then print_object children depth fmt
    else none

/-- Per-child rendering loop of `print_array` (entries collection; any failed
child aborts the whole render, as the `fail` flag does). -/
def array_entries (children : CJsonList) (depth : Nat) (fmt : Bool) :
    Option (List (List Nat)) :=
  match children with
  | .nil => some []
  | .cons hd tl =>
    match print_value hd (depth + 1) fmt with
    | none => none
    | some e =>
      match array_entries tl depth fmt with
      | none => none
      | some es => some (e :: es)

/-- `print_array(item, depth, fmt, NULL)` on the child chain of `item`:
renders every child, then concatenates them between `[` and `]` separated by
`,` (plus one space when `fmt` is set - pretty arrays stay on one line). -/
def print_array (children : CJsonList) (depth : Nat) (fmt : Bool) :
    Option (List Nat) :=
  match children with
  | .nil => some [91, 93]
  | .cons hd tl =>
    match print_value hd (depth + 1) fmt with
    | none => none
    | some e =>
      match array_entries tl depth fmt with
      | none => none
      | some es =>
        some ([91] ++ joinEntries (e :: es) (if fmt then [44, 32] else [44]) ++
          [93])

/-- Per-member rendering loop of `print_object`: the key via
`print_string_ptr(child->string, NULL)` and the value via `print_value`
(called here with the already incremented depth). -/
def object_entries (children : CJsonList) (depth : Nat) (fmt : Bool) :
    Option (List (List Nat × List Nat)) :=
  match children with
  | .nil => some []
  | .cons hd tl =>
    match print_string_ptr hd.keystr with
    | none => none
    | some nm =>
      match print_value hd depth fmt with
      | none => none
      | some e =>
        match object_entries tl depth fmt with
        | none => none
        | some es => some ((nm, e) :: es)

/-- `print_object(item, depth, fmt, NULL)` on the child chain of `item`: an
empty object renders as `{`, newline plus `depth` tabs when pretty, `}`;
otherwise members are rendered at `depth + 1` and composed with a newline
after `{` and `depth` closing tabs (pretty). -/
def print_object (children : CJsonList) (depth : Nat) (fmt : Bool) :
    Option (List Nat) :=
  match children with
  | .nil =>
    some ([123] ++ (if fmt then 10 :: List.replicate depth 9 else []) ++ [125])
  | .cons hd tl =>
    match print_string_ptr hd.keystr with
    | none => none
    | some nm =>
      match print_value hd (depth + 1) fmt with
      | none => none
      | some e =>
        match object_entries tl (depth + 1) fmt with
        | none => none
        | some es =>
          some ([123] ++ (if fmt then [10] else []) ++
            objectBody ((nm, e) :: es) (depth + 1) fmt ++
            (if fmt then List.replicate depth 9 else []) ++ [125])
end

/-- `cJSON_Print`: exact two-pass serializer, formatted. -/
def cJSON_Print (item : CJson) : Option (List Nat) := print_value item 0 true

/-- `cJSON_PrintUnformatted`: exact two-pass serializer, unformatted. -/
def cJSON_PrintUnformatted (item : CJson) : Option (List Nat) :=
  print_value item 0 false

/-- Arithmetic (sign-extending) right shift by `k ≤ 32` on a 32-bit
two's-complement bit pattern, as the C `>>` does on a negative `int` under
gcc/clang. -/
def sar32 (p k : Nat) : Nat :=
  if p < 2 ^ 31 then p >>> k else (p >>> k) ||| ((2 ^ k - 1) <<< (32 - k))

/-- One `x |= x >> k` smearing step of `pow2gt`. -/
def smearStep (x k : Nat) : Nat := x ||| sar32 x k

/-- `pow2gt(x)`: the bit-smearing "next power of two" computation on the
32-bit `int` pattern `p` — `--x`, the five `x |= x >> k` steps for
`k = 1, 2, 4, 8, 16`, then `x + 1` — including the wrap-around of the
decrement and of the final increment. -/
def pow2gt (p : Nat) : Nat :=
  (smearStep (smearStep (smearStep (smearStep (smearStep
    ((p + UINT32_MOD - 1) % UINT32_MOD) 1) 2) 4) 8) 16 + 1) % UINT32_MOD

/-- Conversion of a `size_t` value to the 32-bit `int` parameter of `pow2gt`
(implementation-defined in C; gcc/clang truncate to the low 32 bits). -/
def size_t_to_int (n : Nat) : Nat := n % UINT32_MOD

/-- Conversion of a 32-bit `int` bit pattern back to `size_t`
(sign-extension of negative values). -/
def int_to_size_t (p : Nat) : Nat :=
  if p < 2 ^ 31 then p else SIZE_T_MOD - UINT32_MOD + p

/-- The `printbuffer` of the growable-buffer serializer.  `buffer` is the
backing allocation (cells beyond what has been written are uninitialised). -/
structure printbuffer where
  buffer : Nat → Option Nat
  length : Nat
  offset : Nat

/-- `ensure(p, needed)`: returns a write cursor (modelled as the byte offset
into the backing allocation) or fails.  Transcribes the overrun guard, the
`INT_MAX` guard on the request, the `needed += p->offset + 1` bump (`size_t`
arithmetic), the fast path when the buffer is already large enough, the
`pow2gt` growth with its `int` round-trip, the `INT_MAX` guard on the new
size, and the `memcpy` of the first `offset` bytes into the fresh
allocation (allocation is modelled as succeeding). -/
def ensure (p : printbuffer) (needed : Nat) : Option (Nat × printbuffer) :=
  if 0 < p.length ∧ p.length ≤ p.offset then none
  else if INT_MAX < needed then none
  else
    let needed := (needed + p.offset + 1) % SIZE_T_MOD
    if needed ≤ p.length then some (p.offset, p)
    else
      let newsize := int_to_size_t (pow2gt (size_t_to_int needed))
      if INT_MAX < newsize then none
      else
        some (p.offset,
          { buffer := fun i => if i < p.offset then p.buffer i else none,
            length := newsize, offset := p.offset })

/-- Write one byte of a printbuffer. -/
def pbWrite (p : printbuffer) (i b : Nat) : printbuffer :=
  { p with buffer := setCell p.buffer i b }

/-- Write a run of bytes of a printbuffer (e.g. `strcpy` at a cursor). -/
def pbWrites (p : printbuffer) (i : Nat) (bs : List Nat) : printbuffer :=
  { p with buffer := setCells p.buffer i bs }

/-- `print_number(item, p)` (buffered): reserve 64 bytes, write the rendered
digits at the cursor plus a terminator, and advance `offset` by the length. -/
def print_number_buf (item : CJson) (p : printbuffer) :
    Option Nat × printbuffer :=
  match ensure p 64 with
  | none => (none, p)
  | some (cur, p) =>
    let txt := renderNumber item.valuedouble
    let p := pbWrites p cur (txt ++ [0])
    (some cur, { p with offset := p.offset + txt.length })

/-- `print_string_ptr(str, p)` (buffered): reserve the exact escaped length,
run the escape loop at the cursor, then set `p->offset` to the index of the
written NUL and return `p->buffer` (the start of the buffer). -/
def print_string_ptr_buf (str : Option (List Nat)) (p : printbuffer) :
    Option Nat × printbuffer :=
  match str with
  | none =>
    match ensure p 3 with
    | none => (none, p)
    | some (cur, p) => (some cur, pbWrites p cur [34, 34, 0])
  | some s =>
    let content := cstr s
    let len := 5 * (content.filter (fun c => escFlag c)).length + content.length + 3
    match ensure p len with
    | none => (none, p)
    | some (cur, p) =>
      let buf := setCell p.buffer cur 34
      let (buf, pos) := escapeLoop buf (cur + 1) content
      let buf := setCell buf pos 34
      let buf := setCell buf (pos + 1) 0
      (some 0, { p with buffer := buf, offset := pos + 1 })

mutual
/-- `print_value(item, depth, fmt, p)` (buffered dispatch).  The `NULL`,
`false` and `true` cases `strcpy` at the cursor without advancing `offset`;
the Raw cases `strcpy`/`sprintf` at the START of the buffer (and the
NULL-valuestring Raw case leaves `out` unassigned, hence returns NULL).
The buffered `print_array`/`print_object` bodies are inlined into the two
container branches (their `item->child` read included); each renders the
opening bracket, runs the child loop, and renders the closing bracket,
returning `p->buffer` (offset 0). -/
def print_value_buf (item : CJson) (depth : Nat) (fmt : Bool)
    (p : printbuffer) : Option Nat × printbuffer :=
  match item with
  | .mk ty vs _ _ _ children =>
    let t := ty &&& 255
    if t = cJSON_NULL then
      match ensure p 5 with
      | none => (none, p)
      | some (cur, p) => (some cur, pbWrites p cur [110, 117, 108, 108, 0])
    else if t = cJSON_False then
      match ensure p 6 with
      | none => (none, p)
      | some (cur, p) => (some cur, pbWrites p cur [102, 97, 108, 115, 101, 0])
    else if t = cJSON_True then
      match ensure p 5 with
      | none => (none, p)
      | some (cur, p) => (some cur, pbWrites p cur [116, 114, 117, 101, 0])
    else if t = cJSON_Number then print_number_buf item p
    else if t = cJSON_Raw then
      match vs with
      | none =>
        match ensure p 3 with
        | none => (none, p)
        | some (_, p) => (none, pbWrites p 0 [34, 34, 0])
      | some s =>
        let raw := cstr s
        match ensure p (raw.length + 2) with
        | none => (none, p)
        | some (_, p) =>
          (none, { (pbWrites p 0 (raw ++ [0])) with offset := raw.length })
    else if t = cJSON_String then print_string_ptr_buf vs p
    else if t = cJSON_Array then
      match children with
      | .nil =>
        match ensure p 3 with
        | none => (none, p)
        | some (cur, p) => (some cur, pbWrites p cur [91, 93, 0])
      | .cons hd tl =>
        match ensure p 1 with
        | none => (none, p)
        | some (cur, p) =>
          let p := pbWrite p cur 91
          let p := { p with offset := p.offset + 1 }
          match array_loop_buf (.cons hd tl) depth fmt p with
          | (none, p) => (none, p)
          | (some _, p) =>
            match ensure p 2 with
            | none => (none, p)
            | some (cur, p) =>
              let p := pbWrite p cur 93
              let p := pbWrite p (cur + 1) 0
              (some 0, p)
    else if t = cJSON_Object then
      match children with
      | .nil =>
        match ensure p (if fmt then depth + 4 else 3) with
        | none => (none, p)
        | some (cur, p) =>
          (some cur, pbWrites p cur
            ([123] ++ (if fmt then 10 :: List.replicate depth 9 else []) ++
              [125, 0]))
      | .cons hd tl =>
        let len := if fmt then 2 else 1
        match ensure p (len + 1) with
        | none => (none, p)
        | some (cur, p) =>
          let p := pbWrite p cur 123
          let p := if fmt then pbWrite p (cur + 1) 10 else p
          let p := pbWrite p (cur + len) 0
          let p := { p with offset := p.offset + len }
          match object_loop_buf (.cons hd tl) (depth + 1) fmt p with
          | (none, p) => (none, p)
          | (some _, p) =>
            match ensure p (if fmt then depth + 2 else 2) with
            | none => (none, p)
            | some (cur, p) =>
              let p := pbWrites p cur
                ((if fmt then List.replicate depth 9 else []) ++ [125, 0])
              (some 0, p)
    else (none, p)

/-- The child loop of buffered `print_array`: render each child (result
ignored), then `p->offset = (size_t)(p->buffer - p->buffer)` — i.e. reset the
offset to 0 (the patched offset update) — then the separator when a child
follows. -/
def array_loop_buf (children : CJsonList) (depth : Nat) (fmt : Bool)
    (p : printbuffer) : Option Unit × printbuffer :=
  match children with
  | .nil => (some (), p)
  | .cons hd tl =>
    let (_, p) := print_value_buf hd (depth + 1) fmt p
    let p := { p with offset := 0 }
    match tl with
    | .nil => (some (), p)
    | .cons _ _ =>
      let len := if fmt then 2 else 1
      match ensure p (len + 1) with
      | none => (none, p)
      | some (cur, p) =>
        let p := pbWrite p cur 44
        let p := if fmt then pbWrite p (cur + 1) 32 else p
        let p := pbWrite p (cur + len) 0
        let p := { p with offset := p.offset + len }
        array_loop_buf tl depth fmt p

/-- The member loop of buffered `print_object` (`depth` is already the
incremented depth): pretty indent tabs, the key (result ignored), offset
reset to 0, `:` plus pretty tab, the value (result ignored), offset reset to
0, then comma/newline. -/
def object_loop_buf (children : CJsonList) (depth : Nat) (fmt : Bool)
    (p : printbuffer) : Option Unit × printbuffer :=
  match children with
  | .nil => (some (), p)
  | .cons hd tl =>
    let step : Option Unit × printbuffer :=
      if fmt then
        match ensure p depth with
        | none => (none, p)
        | some (cur, p) =>
          (some (), { (pbWrites p cur (List.replicate depth 9)) with
                        offset := p.offset + depth })
      else (some (), p)
    match step with
    | (none, p) => (none, p)
    | (some _, p) =>
      let (_, p) := print_string_ptr_buf hd.keystr p
      let p := { p with offset := 0 }
      let len := if fmt then 2 else 1
      match ensure p len with
      | none => (none, p)
      | some (cur, p) =>
        let p := pbWrite p cur 58
        let p := if fmt then pbWrite p (cur + 1) 9 else p
        let p := { p with offset := p.offset + len }
        let (_, p) := print_value_buf hd depth fmt p
        let p := { p with offset := 0 }
        let len2 := (if fmt then 1 else 0) +
          (match tl with | .nil => 0 | .cons _ _ => 1)
        match ensure p (len2 + 1) with
        | none => (none, p)
        | some (cur, p) =>
          let (p, pos) : printbuffer × Nat :=
            match tl with
            | .nil => (p, cur)
            | .cons _ _ => (pbWrite p cur 44, cur + 1)
          let (p, pos) : printbuffer × Nat :=
            if fmt then (pbWrite p pos 10, pos + 1) else (p, pos)
          let p := pbWrite p pos 0
          let p := { p with offset := p.offset + len2 }
          object_loop_buf tl depth fmt p
end

/-- `cJSON_PrintBuffered(item, prebuffer, fmt)`: allocate `prebuffer` bytes,
run the buffered serializer from offset 0, and read the returned pointer back
as a C string. -/
def cJSON_PrintBuffered (item : CJson) (prebuffer : Nat) (fmt : Bool) :
    Option (List Nat) :=
  let p : printbuffer := ⟨fun _ => none, prebuffer, 0⟩
  match print_value_buf item 0 fmt p with
  | (none, _) => none
  | (some ptr, p) => cStringFrom p.buffer ptr (p.length + 64)

/-- Parser state: the input buffer (which `parse_string` MUTATES in its first
pass, since the patched code passes `&ptr` into the input as the UTF-8 output
pointer), the shared error-position marker `global_ep` (as an index into the
input), and the running count of `cJSON_New_Item` allocations. -/
structure parseState where
  input : List Nat
  ep : Option Nat
  allocs : Nat

/-- `parse_hex4`: four hex digits accumulated with nibble shifts. -/
def parse_hex4 (input : List Nat) (pos : Nat) : Option Nat :=
  let digit (c : Nat) : Option Nat :=
    if 48 ≤ c ∧ c ≤ 57 then some (c - 48)
    else if 65 ≤ c ∧ c ≤ 70 then some (10 + c - 65)
    else if 97 ≤ c ∧ c ≤ 102 then some (10 + c - 97)
    else none
  match digit (getByte input pos), digit (getByte input (pos + 1)),
        digit (getByte input (pos + 2)), digit (getByte input (pos + 3)) with
  | some a, some b, some c, some d =>
    some ((((a <<< 4 ||| b) <<< 4) ||| c) <<< 4 ||| d)
  | _, _, _, _ => none

/-- The UTF-8 encoding loop of `utf16_literal_to_utf8`: continuation bytes
are written from position `len - 1` down to 1 (each `(cp | 0x80) & 0xBF`,
shifting `cp` right by 6), then the first byte gets `first_byte_mark`. -/
def utf8Bytes (cp0 len mark : Nat) : List Nat :=
  let rec go (cp k : Nat) (acc : List Nat) : Nat × List Nat :=
    match k with
    | 0 => (cp, acc)
    | k + 1 => go (cp >>> 6) k (((cp ||| 0x80) &&& 0xBF) :: acc)
  let (cp, tail) := go cp0 (len - 1) []
  (if 1 < len then (cp ||| mark) &&& 0xFF else cp &&& 0x7F) :: tail

/-- `utf16_literal_to_utf8(input_pointer, input_end, output)`: decode one
`\uXXXX` escape (or a surrogate pair) starting at index `first` — note that
the patched callers pass the position of the `u`, not of the backslash, so
`parse_hex4` reads at `first + 2`.  Returns `(sequence_length, utf8 bytes)`;
`none` models the `fail: return 0` paths (truncated input, bad hex, lone low
surrogate, high surrogate without a valid low surrogate, codepoint out of
range). -/
def utf16_literal_to_utf8 (input : List Nat) (first inputEnd : Nat) :
    Option (Nat × List Nat) :=
  if inputEnd < first + 6 then none
  else
    match parse_hex4 input (first + 2) with
    | none => none
    | some first_code =>
      if 0xDC00 ≤ first_code ∧ first_code ≤ 0xDFFF then none
      else
        let pair : Option (Nat × Nat) :=
          if 0xD800 ≤ first_code ∧ first_code ≤ 0xDBFF then
            let second := first + 6
            if inputEnd < second + 6 then none
            else if getByte input second ≠ 92 ∨ getByte input (second + 1) ≠ 117 then
              none
            else
              match parse_hex4 input (second + 2) with
              | none => none
              | some second_code =>
                if second_code < 0xDC00 ∨ 0xDFFF < second_code then none
                else
                  some (0x10000 +
                    (((first_code &&& 0x3FF) <<< 10) ||| (second_code &&& 0x3FF)), 12)
          else some (first_code, 6)
        match pair with
        | none => none
        | some (codepoint, seqLen) =>
          if codepoint < 0x80 then some (seqLen, utf8Bytes codepoint 1 0)
          else if codepoint < 0x800 then some (seqLen, utf8Bytes codepoint 2 0xC0)
          else if codepoint < 0x10000 then some (seqLen, utf8Bytes codepoint 3 0xE0)
          else if codepoint ≤ 0x10FFFF then some (seqLen, utf8Bytes codepoint 4 0xF0)
          else none

/-- Overwrite bytes of the input buffer starting at index `i` (the in-place
UTF-8 write that pass 1 of `parse_string` performs through `&ptr`). -/
def overwriteAt (l : List Nat) (i : Nat) (bs : List Nat) : List Nat :=
  l.take i ++ bs ++ l.drop (i + bs.length)

/-- Pass 1 of `parse_string`: scan to the closing quote, validating escapes
and summing the extra decoded length of `\u` sequences.  The `\u` case hands
`&ptr` to `utf16_literal_to_utf8` as the OUTPUT pointer, so the decoded UTF-8
bytes overwrite the input at the position of the `u` and the cursor advances
by their count.  Returns the mutated input, the final cursor and the length
adjustment; `none` is the invalid-escape failure (the caller sets the error
marker).  `fuel` bounds the loop (the cursor strictly advances, so
`inputEnd + 2` iterations always suffice). -/
def ps_pass1 (input : List Nat) (inputEnd ptr len : Nat) :
    Nat → Option (List Nat × Nat × Nat)
  | 0 => none
  | fuel + 1 =>
    if ptr < inputEnd ∧ getByte input ptr ≠ 34 then
      if getByte input ptr ≠ 92 then ps_pass1 input inputEnd (ptr + 1) len fuel
      else
        let ptr := ptr + 1
        let c := getByte input ptr
        if ptr < inputEnd ∧ (c = 34 ∨ c = 92 ∨ c = 47 ∨ c = 98 ∨ c = 102 ∨
            c = 110 ∨ c = 114 ∨ c = 116) then
          ps_pass1 input inputEnd (ptr + 1) len fuel
        else if ptr < inputEnd ∧ c = 117 then
          match utf16_literal_to_utf8 input ptr inputEnd with
          | none => none
          | some (seqLen, bytes) =>
            ps_pass1 (overwriteAt input ptr bytes) inputEnd (ptr + bytes.length)
              (len + (seqLen - 6)) fuel
        else none
    else some (input, ptr, len)

/-- Pass 2 of `parse_string`: copy literal bytes and decode escapes from the
(by now mutated) input into the output string.  In the `\u` case the cursor
advances by `sequence_length` overall; if `utf16_literal_to_utf8` fails here
the C cursor does not advance at all (an infinite loop in C), which the fuel
models by stopping. -/
def ps_pass2 (input : List Nat) (inputEnd ptr : Nat) (out : List Nat) :
    Nat → List Nat × Nat
  | 0 => (out, ptr)
  | fuel + 1 =>
    if ptr < inputEnd ∧ getByte input ptr ≠ 34 then
      if getByte input ptr ≠ 92 then
        ps_pass2 input inputEnd (ptr + 1) (out ++ [getByte input ptr]) fuel
      else
        let ptr := ptr + 1
        let c := getByte input ptr
        if c = 98 then ps_pass2 input inputEnd (ptr + 1) (out ++ [8]) fuel
        else if c = 102 then ps_pass2 input inputEnd (ptr + 1) (out ++ [12]) fuel
        else if c = 110 then ps_pass2 input inputEnd (ptr + 1) (out ++ [10]) fuel
        else if c = 114 then ps_pass2 input inputEnd (ptr + 1) (out ++ [13]) fuel
        else if c = 116 then ps_pass2 input inputEnd (ptr + 1) (out ++ [9]) fuel
        else if c = 117 then
          match utf16_literal_to_utf8 input ptr inputEnd with
          | none => ps_pass2 input inputEnd ptr out fuel
          | some (seqLen, bytes) =>
            ps_pass2 input inputEnd (ptr + seqLen) (out ++ bytes) fuel
        else ps_pass2 input inputEnd (ptr + 1) (out ++ [c]) fuel
    else (out, ptr)

/-- `item->valuestring = out; item->type = cJSON_String`. -/
def setItemString (item : CJson) (out : List Nat) : CJson :=
  match item with
  | .mk _ _ ks vi vd c => .mk cJSON_String (some out) ks vi vd c

/-- `parse_string(item, str, input_end)`: returns the cursor just past the
closing quote (or `none`, setting the error marker to the opening position),
the populated item, and the state with the pass-1-mutated input. -/
def parse_string (item : CJson) (str : Nat) (st : parseState) :
    Option Nat × CJson × parseState :=
  if getByte st.input str ≠ 34 then
    (none, item, { st with ep := some str })
  else
    let inputEnd := st.input.length
    match ps_pass1 st.input inputEnd (str + 1) 0 (inputEnd + 2) with
    | none => (none, item, { st with ep := some str })
    | some (input, _, _) =>
      let (out, ptr) := ps_pass2 input inputEnd (str + 1) [] (inputEnd + 2)
      let ptr := if getByte input ptr = 34 then ptr + 1 else ptr
      (some ptr, setItemString item out, { st with input := input })

/-- One digit run of `parse_number` accumulating the mantissa (used for both
the integer and the fraction part; `scale` is decremented per digit when
`countScale` is set). -/
def digitRun (input : List Nat) (pos : Nat) (n : ℚ) (scale : Int)
    (countScale : Bool) : Nat → ℚ × Int × Nat
  | 0 => (n, scale, pos)
  | fuel + 1 =>
    let b := getByte input pos
    if 48 ≤ b ∧ b ≤ 57 then
      digitRun input (pos + 1) (n * 10 + ((b : ℚ) - 48))
        (if countScale then scale - 1 else scale) countScale fuel
    else (n, scale, pos)

/-- The exponent digit run of `parse_number` (`subscale = subscale*10 + d`). -/
def expDigitRun (input : List Nat) (pos : Nat) (sub : Int) : Nat → Int × Nat
  | 0 => (sub, pos)
  | fuel + 1 =>
    let b := getByte input pos
    if 48 ≤ b ∧ b ≤ 57 then
      expDigitRun input (pos + 1) (sub * 10 + ((b : Int) - 48)) fuel
    else (sub, pos)

/-- `item->valuedouble = n; item->valueint = (int)n; item->type =
cJSON_Number` (the `(int)` cast truncates toward zero). -/
def setItemNumber (item : CJson) (n : ℚ) : CJson :=
  match item with
  | .mk _ vs ks _ _ c => .mk cJSON_Number vs ks (n.num / (n.den : Int)) n c

/-- `parse_number(item, num)`: optional sign, one skipped leading zero, the
integer digit run, optional fraction run (as a negative power-of-ten scale),
optional exponent with its own sign; the value is
`sign * n * 10^(scale + subscale*signsubscale)`.  This function never fails
in C. -/
def parse_number (item : CJson) (num0 : Nat) (input : List Nat) : Nat × CJson :=
  let fuel := input.length + 2
  let (sign, num) : ℚ × Nat :=
    if getByte input num0 = 45 then (-1, num0 + 1) else (1, num0)
  let num := if getByte input num = 48 then num + 1 else num
  let (n, num) : ℚ × Nat :=
    if 49 ≤ getByte input num ∧ getByte input num ≤ 57 then
      let (n, _, num) := digitRun input num 0 0 false fuel
      (n, num)
    else (0, num)
  let (n, scale, num) : ℚ × Int × Nat :=
    if getByte input num = 46 ∧ 48 ≤ getByte input (num + 1) ∧
        getByte input (num + 1) ≤ 57 then
      digitRun input (num + 1) n 0 true fuel
    else (n, 0, num)
  let (subscale, signsubscale, num) : Int × Int × Nat :=
    if getByte input num = 101 ∨ getByte input num = 69 then
      let num := num + 1
      let (ss, num) : Int × Nat :=
        if getByte input num = 43 then (1, num + 1)
        else if getByte input num = 45 then (-1, num + 1)
        else (1, num)
      let (sub, num) := expDigitRun input num 0 fuel
      (sub, ss, num)
    else (0, 1, num)
  let n : ℚ := sign * n * (10 : ℚ) ^ (scale + subscale * signsubscale)
  (num, setItemNumber item n)

/-- Loop of `skip` (the cursor strictly advances while below the end, so
`input.length + 1` iterations always suffice). -/
def skipGo (input : List Nat) : Nat → Nat → Nat
  | pos, 0 => pos
  | pos, fuel + 1 =>
    if pos < input.length ∧ getByte input pos ≤ 32 then
      skipGo input (pos + 1) fuel
    else pos

/-- `skip`: advance over bytes `≤ 32` while before the input end. -/
def skip (input : List Nat) (pos : Nat) : Nat :=
  skipGo input pos (input.length + 1)

/-- `strncmp(value + pos, lit, lit.length) == 0` for a literal keyword (the
NUL-terminated read semantics make a short input mismatch). -/
def literalAt (input : List Nat) (pos : Nat) (lit : List Nat) : Bool :=
  (List.range lit.length).all fun i => getByte input (pos + i) = lit.get! i

/-- `item->type = t` (plain assignment, replacing all flags). -/
def setType (item : CJson) (t : Nat) : CJson :=
  match item with
  | .mk _ vs ks vi vd c => .mk t vs ks vi vd c

/-- `item->type = cJSON_True; item->valueint = 1`. -/
def setTrue (item : CJson) : CJson :=
  match item with
  | .mk _ vs ks _ vd c => .mk cJSON_True vs ks 1 vd c

/-- Replace the child chain of a node. -/
def setChildren (item : CJson) (ch : CJsonList) : CJson :=
  match item with
  | .mk ty vs ks vi vd _ => .mk ty vs ks vi vd ch

/-- `child->string = child->valuestring; child->valuestring = NULL` (the key
move in `parse_object`). -/
def moveStringToKey (item : CJson) : CJson :=
  match item with
  | .mk ty vs _ vi vd c => .mk ty none vs vi vd c

def CJsonList.append : CJsonList → CJsonList → CJsonList
  | .nil, ys => ys
  | .cons x xs, ys => .cons x (xs.append ys)

/-- Append one node at the tail of a chain (`child->next = new_item`). -/
def CJsonList.snoc (xs : CJsonList) (x : CJson) : CJsonList :=
  xs.append (.cons x .nil)

mutual
/-- `parse_value(item, value, input_end)`: dispatch on the lookahead byte.
`value = none` models a NULL cursor propagated from a failed inner parse.
Any unrecognised byte sets the error marker at that position and fails. -/
def parse_value (fuel : Nat) (item : CJson) (value : Option Nat)
    (st : parseState) : Option Nat × CJson × parseState :=
  match fuel with
  | 0 => (none, item, st)
  | fuel + 1 =>
    match value with
    | none => (none, item, st)
    | some pos =>
      if literalAt st.input pos [110, 117, 108, 108] then
        (some (pos + 4), setType item cJSON_NULL, st)
      else if literalAt st.input pos [102, 97, 108, 115, 101] then
        (some (pos + 5), setType item cJSON_False, st)
      else if literalAt st.input pos [116, 114, 117, 101] then
        (some (pos + 4), setTrue item, st)
      else
        let b := getByte st.input pos
        if b = 34 then parse_string item pos st
        else if b = 45 ∨ (48 ≤ b ∧ b ≤ 57) then
          let (p2, item) := parse_number item pos st.input
          (some p2, item, st)
        else if b = 91 then parse_array fuel item pos st
        else if b = 123 then parse_object fuel item pos st
        else (none, item, { st with ep := some pos })
termination_by structural fuel

/-- `parse_array(item, value, input_end)`: `[`, optional empty close, first
child (attached to `item->child` before its own parse), then the comma
loop. -/
def parse_array (fuel : Nat) (item : CJson) (pos : Nat) (st : parseState) :
    Option Nat × CJson × parseState :=
  match fuel with
  | 0 => (none, item, st)
  | fuel + 1 =>
    if getByte st.input pos ≠ 91 then
      (none, item, { st with ep := some pos })
    else
      let item := setType item cJSON_Array
      let value := skip st.input (pos + 1)
      if getByte st.input value = 93 then (some (value + 1), item, st)
      else
        let st := { st with allocs := st.allocs + 1 }
        match parse_value fuel newItem (some (skip st.input value)) st with
        | (none, child, st) => (none, setChildren item (.cons child .nil), st)
        | (some v, child, st) =>
          array_loop fuel (CJsonList.cons child .nil) item (skip st.input v) st
termination_by structural fuel

/-- The `while (*value == ',')` loop of `parse_array`, including the
trailing-comma tolerance, followed by the closing-bracket check.  `acc` is
the child chain built so far (each new item is linked in before it is
parsed). -/
def array_loop (fuel : Nat) (acc : CJsonList) (item : CJson) (value : Nat)
    (st : parseState) : Option Nat × CJson × parseState :=
  match fuel with
  | 0 => (none, setChildren item acc, st)
  | fuel + 1 =>
    if getByte st.input value = 44 then
      let value2 := skip st.input (value + 1)
      if getByte st.input value2 = 93 then
        (some (value2 + 1), setChildren item acc, st)
      else
        let st := { st with allocs := st.allocs + 1 }
        match parse_value fuel newItem (some (skip st.input value2)) st with
        | (none, child, st) => (none, setChildren item (acc.snoc child), st)
        | (some v, child, st) =>
          array_loop fuel (acc.snoc child) item (skip st.input v) st
    else if getByte st.input value = 93 then
      (some (value + 1), setChildren item acc, st)
    else
      (none, setChildren item acc, { st with ep := some value })
termination_by structural fuel

/-- `parse_object(item, value, input_end)`: `{`, optional empty close, first
key/value member, then the comma loop. -/
def parse_object (fuel : Nat) (item : CJson) (pos : Nat) (st : parseState) :
    Option Nat × CJson × parseState :=
  match fuel with
  | 0 => (none, item, st)
  | fuel + 1 =>
    if getByte st.input pos ≠ 123 then
      (none, item, { st with ep := some pos })
    else
      let item := setType item cJSON_Object
      let value := skip st.input (pos + 1)
      if getByte st.input value = 125 then (some (value + 1), item, st)
      else
        let st := { st with allocs := st.allocs + 1 }
        match parse_string newItem (skip st.input value) st with
        | (none, child, st) => (none, setChildren item (.cons child .nil), st)
        | (some v, child, st) =>
          let value := skip st.input v
          let child := moveStringToKey child
          if getByte st.input value ≠ 58 then
            (none, setChildren item (.cons child .nil),
             { st with ep := some value })
          else
            match parse_value fuel child (some (skip st.input (value + 1))) st with
            | (none, child, st) =>
              (none, setChildren item (.cons child .nil), st)
            | (some v, child, st) =>
              object_loop fuel (CJsonList.cons child .nil) item
                (skip st.input v) st
termination_by structural fuel

/-- The `while (*value == ',')` loop of `parse_object` with trailing-comma
tolerance, the key/colon/value sequence per member, and the closing-brace
check. -/
def object_loop (fuel : Nat) (acc : CJsonList) (item : CJson) (value : Nat)
    (st : parseState) : Option Nat × CJson × parseState :=
  match fuel with
  | 0 => (none, setChildren item acc, st)
  | fuel + 1 =>
    if getByte st.input value = 44 then
      let value2 := skip st.input (value + 1)
      if getByte st.input value2 = 125 then
        (some (value2 + 1), setChildren item acc, st)
      else
        let st := { st with allocs := st.allocs + 1 }
        match parse_string newItem (skip st.input value2) st with
        | (none, child, st) => (none, setChildren item (acc.snoc child), st)
        | (some v, child, st) =>
          let value3 := skip st.input v
          let child := moveStringToKey child
          if getByte st.input value3 ≠ 58 then
            (none, setChildren item (acc.snoc child),
             { st with ep := some value3 })
          else
            match parse_value fuel child (some (skip st.input (value3 + 1))) st with
            | (none, child, st) =>
              (none, setChildren item (acc.snoc child), st)
            | (some v, child, st) =>
              object_loop fuel (acc.snoc child) item (skip st.input v) st
    else if getByte st.input value = 125 then
      (some (value + 1), setChildren item acc, st)
    else
      (none, setChildren item acc, { st with ep := some value })
termination_by structural fuel
end

mutual
/-- Number of nodes freed by `cJSON_Delete(c)` on a single node (the parser's
root is never part of a sibling chain): the node itself plus, unless the
IsReference flag is set, its recursively deleted child chain. -/
def deleteCount (c : CJson) : Nat :=
  match c with
  | .mk ty _ _ _ _ children =>
    1 + (if ty &&& cJSON_IsReference = 0 then deleteCountList children else 0)

/-- `cJSON_Delete` walks the sibling chain. -/
def deleteCountList (cs : CJsonList) : Nat :=
  match cs with
  | .nil => 0
  | .cons hd tl => deleteCount hd + deleteCountList tl
end

/-- Outcome of the top-level parse entry point: the tree (absent on failure),
the error marker, the (possibly mutated) input, the number of node
allocations made, and the number of nodes freed by the automatic
`cJSON_Delete` on failure. -/
structure parseOutcome where
  tree : Option CJson
  ep : Option Nat
  input : List Nat
  allocs : Nat
  freed : Nat

/-- `cJSON_ParseWithOpts(value, return_parse_end, require_null_terminated)`:
allocates the root, clears the error marker, parses from the first
non-whitespace byte, and on failure deletes the partially built tree.  When
`require_null_terminated` is set, trailing non-whitespace also fails (with
the marker at the residue) after deleting the tree. -/
def cJSON_ParseWithOpts (value : List Nat) (require_null_terminated : Bool)
    (fuel : Nat) : parseOutcome :=
  let st : parseState := ⟨value, none, 1⟩
  match parse_value fuel newItem (some (skip value 0)) st with
  | (none, c, st) => ⟨none, st.ep, st.input, st.allocs, deleteCount c⟩
  | (some parse_end, c, st) =>
    if require_null_terminated then
      let end_of_parse := skip st.input parse_end
      if end_of_parse ≠ st.input.length then
        ⟨none, some end_of_parse, st.input, st.allocs, deleteCount c⟩
      else ⟨some c, st.ep, st.input, st.allocs, 0⟩
    else ⟨some c, st.ep, st.input, st.allocs, 0⟩

/-- `cJSON_Parse(value)`. -/
def cJSON_Parse (value : List Nat) (fuel : Nat) : parseOutcome :=
  cJSON_ParseWithOpts value false fuel

/-- `tolower` in the C locale. -/
def tolowerC (c : Nat) : Nat := if 65 ≤ c ∧ c ≤ 90 then c + 32 else c

/-- The comparison loop of `cJSON_strcasecmp` (reading the terminator `0`
past the end of either list). -/
def strcaseLoop : List Nat → List Nat → Int
  | x :: xs, y :: ys =>
    if tolowerC x = tolowerC y then (if x = 0 then 0 else strcaseLoop xs ys)
    else (tolowerC x : Int) - (tolowerC y : Int)
  | [], [] => 0
  | [], y :: _ =>
    if tolowerC y = 0 then 0 else (0 : Int) - (tolowerC y : Int)
  | x :: _, [] =>
    if tolowerC x = 0 then 0 else (tolowerC x : Int)

/-- `cJSON_strcasecmp(s1, s2)` including its NULL-pointer cases. -/
def cJSON_strcasecmp (s1 s2 : Option (List Nat)) : Int :=
  match s1, s2 with
  | none, none => 0
  | none, some _ => 1
  | some _, none => -1
  | some a, some b => strcaseLoop a b

/-- `cJSON_GetArrayItem`'s walk: `while (c && item > 0) { item--; c = c->next; }`
(a non-positive index yields the head). -/
def chainWalk : CJsonList → Int → Option CJson
  | .nil, _ => none
  | .cons hd tl, n => if 0 < n then chainWalk tl (n - 1) else some hd

/-- `cJSON_GetArrayItem(array, item)`: NULL array yields NULL. -/
def cJSON_GetArrayItem (array : Option CJson) (idx : Int) : Option CJson :=
  match array with
  | none => none
  | some a => chainWalk a.child idx

/-- The search loop of `cJSON_GetObjectItem` (case-insensitive compare on
the member key). -/
def objectFind : CJsonList → List Nat → Option CJson
  | .nil, _ => none
  | .cons hd tl, key =>
    if cJSON_strcasecmp hd.keystr (some key) ≠ 0 then objectFind tl key
    else some hd

/-- `cJSON_GetObjectItem(object, string)`: NULL object yields NULL. -/
def cJSON_GetObjectItem (object : Option CJson) (key : List Nat) :
    Option CJson :=
  match object with
  | none => none
  | some o => objectFind o.child key

/-- The type predicates of cJSON.c; each returns false on a NULL item. -/
def cJSON_IsInvalid : Option CJson → Bool
  | none => false
  | some it => (it.ty &&& 255) = cJSON_Invalid

def cJSON_IsFalse : Option CJson → Bool
  | none => false
  | some it => (it.ty &&& 255) = cJSON_False

def cJSON_IsTrue : Option CJson → Bool
  | none => false
  | some it => (it.ty &&& 255) = cJSON_True

def cJSON_IsBool : Option CJson → Bool
  | none => false
  | some it => (it.ty &&& (cJSON_True ||| cJSON_False)) ≠ 0

def cJSON_IsNull : Option CJson → Bool
  | none => false
  | some it => (it.ty &&& 255) = cJSON_NULL

def cJSON_IsNumber : Option CJson → Bool
  | none => false
  | some it => (it.ty &&& 255) = cJSON_Number

def cJSON_IsString : Option CJson → Bool
  | none => false
  | some it => (it.ty &&& 255) = cJSON_String

def cJSON_IsArray : Option CJson → Bool
  | none => false
  | some it => (it.ty &&& 255) = cJSON_Array

def cJSON_IsObject : Option CJson → Bool
  | none => false
  | some it => (it.ty &&& 255) = cJSON_Object

def cJSON_IsRaw : Option CJson → Bool
  | none => false
  | some it => (it.ty &&& 255) = cJSON_Raw

mutual
/-- Pointer-level node model used for `cJSON_Duplicate`: string payloads are
addresses into a string heap, so that storage sharing between the original
and the duplicate is observable. -/
inductive PNode : Type where
  | mk (ty : Nat) (vsPtr : Option Nat) (keyPtr : Option Nat)
       (valueint : Int) (valuedouble : ℚ) (child : PNodeList)

inductive PNodeList : Type where
  | nil : PNodeList
  | cons (hd : PNode) (tl : PNodeList) : PNodeList
end

def PNode.ty : PNode → Nat
  | .mk t _ _ _ _ _ => t

def PNode.vsPtr : PNode → Option Nat
  | .mk _ v _ _ _ _ => v

def PNode.keyPtr : PNode → Option Nat
  | .mk _ _ k _ _ _ => k

def PNode.child : PNode → PNodeList
  | .mk _ _ _ _ _ c => c

/-- The string heap: an address is an index into the allocation list. -/
structure strHeap where
  strs : List (List Nat)

/-- Dereference a string address (a dangling address reads as empty). -/
def strHeap.deref (h : strHeap) (p : Nat) : List Nat := (h.strs.get? p).getD []

/-- `cJSON_strdup(str, strlen(str))` of the string at address `p`: a fresh
allocation holding a copy of the C-string content. -/
def strdupH (h : strHeap) (p : Nat) : Nat × strHeap :=
  (h.strs.length, ⟨h.strs ++ [cstr (h.deref p)]⟩)

mutual
/-- `cJSON_Duplicate(item, recurse)` over the pointer-level model: the new
type drops the IsReference flag; `valuestring` is always `cJSON_strdup`-ed;
the key is the SAME address when StringIsConst is set, otherwise a fresh
copy; children are deep-copied only when `recurse` is set (a fresh node has
no child, per the zeroing `cJSON_New_Item`). -/
def cJSON_Duplicate (item : PNode) (recurse : Bool) (h : strHeap) :
    PNode × strHeap :=
  match item with
  | .mk ty vsPtr keyPtr vi vd children =>
    let newty := ty &&& (UINT32_MOD - 1 - cJSON_IsReference)
    let (newvs, h) : Option Nat × strHeap :=
      match vsPtr with
      | none => (none, h)
      | some p => let (q, h) := strdupH h p; (some q, h)
    let (newkey, h) : Option Nat × strHeap :=
      match keyPtr with
      | none => (none, h)
      | some p =>
        if ty &&& cJSON_StringIsConst ≠ 0 then (some p, h)
        else let (q, h) := strdupH h p; (some q, h)
    if recurse then
      let (newch, h) := dupChain children h
      (.mk newty newvs newkey vi vd newch, h)
    else (.mk newty newvs newkey vi vd .nil, h)

/-- The `->next` chain walk of the recursive duplicate. -/
def dupChain : PNodeList → strHeap → PNodeList × strHeap
  | .nil, h => (.nil, h)
  | .cons hd tl, h =>
    let (nh, h) := cJSON_Duplicate hd true h
    let (nt, h) := dupChain tl h
    (.cons nh nt, h)
end

mutual
/-- All string addresses reachable in a pointer-level tree. -/
def PNode.ptrs : PNode → List Nat
  | .mk _ vs ks _ _ children =>
    (match vs with | none => [] | some p => [p]) ++
    (match ks with | none => [] | some p => [p]) ++ PNodeList.ptrs children

def PNodeList.ptrs : PNodeList → List Nat
  | .nil => []
  | .cons hd tl => hd.ptrs ++ tl.ptrs
end

mutual
/-- Ownership shape of a duplicate relative to a heap frontier `lo`
(= the heap length when duplication started): no node carries IsReference,
every `valuestring` address is a fresh allocation (`lo ≤ p`), and every key
address is fresh unless that node carries StringIsConst (the borrowed-key
case, whose address is shared with the original). -/
def FreshlyOwned (lo : Nat) : PNode → Prop
  | .mk ty vs ks _ _ children =>
    ty &&& cJSON_IsReference = 0 ∧
    (∀ p, vs = some p → lo ≤ p) ∧
    (∀ p, ks = some p → ty &&& cJSON_StringIsConst ≠ 0 ∨ lo ≤ p) ∧
    FreshlyOwnedList lo children

def FreshlyOwnedList (lo : Nat) : PNodeList → Prop
  | .nil => True
  | .cons hd tl => FreshlyOwned lo hd ∧ FreshlyOwnedList lo tl
end

/-- Spec-side: `k` is a power of two. -/
def isPow2 (k : Nat) : Prop := ∃ e, k = 2 ^ e

mutual
/-- Spec-side structural equality of trees, following the round-trip claim:
same kind byte, same keys, same string payloads, same numeric values, same
child order, recursively. -/
def structEq (a b : CJson) : Bool :=
  match a, b with
  | .mk ta va ka ia da ca, .mk tb vb kb ib db cb =>
    decide ((ta &&& 255) = (tb &&& 255)) && decide (va = vb) &&
      decide (ka = kb) && decide (ia = ib) && decide (da = db) &&
      structEqList ca cb

def structEqList : CJsonList → CJsonList → Bool
  | .nil, .nil => true
  | .cons x xs, .cons y ys => structEq x y && structEqList xs ys
  | _, _ => false
end

/-- Spec-side: `n` tab characters. -/
def tabsOf (n : Nat) : List Nat := List.replicate n 9

/-- Spec-side: one rendered object member, key `:` tab value (pretty). -/
def specMember (pr : List Nat × List Nat) : List Nat :=
  pr.1 ++ [58, 9] ++ pr.2

/-- Spec-side join of rendered entries with a separator between consecutive
entries. -/
def specJoin (xs : List (List Nat)) (sep : List Nat) : List Nat :=
  match xs with
  | [] => []
  | [x] => x
  | x :: rest => x ++ sep ++ specJoin rest sep

/-- Spec-side pretty-object formula: newline after the brace, `d + 1`
indentation tabs before the first member and after each member separator
`,\n`, then a newline, `d` tabs and the closing brace. -/
def specPrettyObject (pairs : List (List Nat × List Nat)) (d : Nat) :
    List Nat :=
  [123, 10] ++ tabsOf (d + 1) ++
    specJoin (pairs.map specMember) ([44, 10] ++ tabsOf (d + 1)) ++
    [10] ++ tabsOf d ++ [125]

/-- Fixture: a Null node. -/
def nullNode : CJson := .mk cJSON_NULL none none 0 0 .nil

/-- Fixture: the two-element array holding two Null children. -/
def arrayTwoNulls : CJson :=
  .mk cJSON_Array none none 0 0 (.cons nullNode (.cons nullNode .nil))

/-- Fixture: the valid JSON text consisting of a quote, the control byte
0x01, the letter `A`, and a closing quote. -/
def ctrlTextInput : List Nat := [34, 1, 65, 34]

/-- Fixture: the JSON text `"😀"` (surrogate pair for U+1F600). -/
def surrogateInput : List Nat :=
  [34, 92, 117, 100, 56, 51, 100, 92, 117, 100, 101, 48, 48, 34]

/-- Fixture: the malformed JSON text `{bad}`. -/
def badObjInput : List Nat := [123, 98, 97, 100, 125]

/-- Fixture: `parse(ctrlTextInput)`. -/
def parsedCtrl : Option CJson := (cJSON_Parse ctrlTextInput 99).tree

/-- Fixture: `print(parse(ctrlTextInput))`. -/
def reprintedCtrl : Option (List Nat) := parsedCtrl.bind cJSON_Print

/-- Fixture: `parse(print(parse(ctrlTextInput)))`. -/
def reparsedCtrl : Option CJson :=
  reprintedCtrl.bind fun s => (cJSON_Parse s 99).tree

/-- Fixture: a heap holding one string `"k"` at address 0, and a node whose
key is that address with the StringIsConst flag set. -/
def constKeyHeap : strHeap := ⟨[[107]]⟩

def constKeyNode : PNode :=
  .mk (cJSON_String ||| cJSON_StringIsConst) none (some 0) 0 0 .nil

/-- Fixture: a printbuffer in a reachable extreme state — a fully written
`INT_MAX`-byte allocation (as obtained from `cJSON_PrintBuffered` with
prebuffer `INT_MAX`): length `2^31 - 1`, write offset `2^31 - 2`. -/
def hugePB : printbuffer := ⟨fun _ => some 0, 2 ^ 31 - 1, 2 ^ 31 - 2⟩

/-- Fixture: a small printbuffer for the `ensure` witness. -/
def smallPB : printbuffer := ⟨fun _ => none, 0, 0⟩

/-- C1 — the exact two-pass serializer and the buffered serializer are
claimed to produce byte-identical output for every tree and pretty flag.
The code refutes this: after each child the buffered `print_array` executes
`p->offset = (size_t)(p->buffer - p->buffer)` (always 0), so on the array
`[null, null]` (prebuffer 16, pretty off) the buffered serializer returns
the single byte `]` while the exact serializer returns `[null,null]`. -/
theorem c1_buffered_not_byte_identical :
    cJSON_PrintBuffered arrayTwoNulls 16 false = some [93] ∧
    cJSON_PrintUnformatted arrayTwoNulls =
      some [91, 110, 117, 108, 108, 44, 110, 117, 108, 108, 93] ∧
    cJSON_PrintBuffered arrayTwoNulls 16 false ≠
      cJSON_PrintUnformatted arrayTwoNulls := by
  refine ⟨by decide, by decide, by decide⟩

/-- C2 — `parse(print(parse(t)))` is claimed structurally equal to
`parse(t)` for every text accepted by `cJSON_Parse`.  Refuted on the
accepted text `ctrlTextInput` (a string containing the raw control byte
0x01): the parse yields the String payload `[0x01, 'A']`, printing it emits
`"@A"` (the escape renders the FOLLOWING byte minus one), and
re-parsing that yields the payload `[0xD0, 0x8A, '0', '4', '0', 'A']`. -/
theorem c2_roundtrip_not_idempotent :
    (parsedCtrl.map fun t => t.ty &&& 255) = some cJSON_String ∧
    (parsedCtrl.bind CJson.valuestring) = some [1, 65] ∧
    reprintedCtrl = some [34, 92, 117, 48, 48, 52, 48, 65, 34] ∧
    (reparsedCtrl.bind CJson.valuestring) = some [208, 138, 48, 52, 48, 65] ∧
    (match parsedCtrl, reparsedCtrl with
     | some a, some b => structEq a b
     | _, _ => false) = false := by
  refine ⟨by decide, by decide, by decide, by decide, by decide⟩

/-- C4 — the serialized form of a control byte below 0x20 is claimed to be
`\u00XX` with `XX` the hex value of THAT byte.  Refuted: on the payload
`[0x01, 'A']` the code emits the hex digits of `0x40` (the following byte
`'A'` minus one, from `sprintf("u%04x", *ptr - 1)`), not of `0x01`. -/
theorem c4_control_escape_wrong_digits :
    print_string_ptr (some [1, 65]) =
      some ([34, 92] ++ (117 :: hex4LowerDigits 64) ++ [65, 34]) ∧
    print_string_ptr (some [1, 65]) ≠
      some ([34, 92] ++ (117 :: hex4LowerDigits 1) ++ [65, 34]) := by
  refine ⟨by decide, by decide⟩

/-- C5 — a high surrogate followed six characters later by a valid low
surrogate is claimed to decode to the UTF-8 bytes of the combined codepoint
(4 bytes for U+1F600).  Refuted: the patched `parse_string` hands
`utf16_literal_to_utf8` the position of the `u`, so the hex window is
shifted one character right and reads `83d\`, and parsing `"😀"`
fails outright (error marker at the opening quote).  The third conjunct
records what the claim expects: the encoder itself maps U+1F600 to the
4-byte sequence `F0 9F 98 80`. -/
theorem c5_surrogate_pair_rejected :
    (cJSON_Parse surrogateInput 99).tree.isNone = true ∧
    (cJSON_Parse surrogateInput 99).ep = some 0 ∧
    utf8Bytes 0x1F600 4 0xF0 = [240, 159, 152, 128] := by
  refine ⟨by decide, by decide, by decide⟩

/-- C3 (counterexample) — pretty mode is claimed to put one newline plus
depth tabs after every array opening bracket and between array children.
Refuted: the pretty rendering of `[null, null]` (two children, depth 0) is
`[null, null]` — children separated by comma-space, no newline byte at
all. -/
theorem c3_pretty_array_has_no_newline :
    cJSON_Print arrayTwoNulls =
      some [91, 110, 117, 108, 108, 44, 32, 110, 117, 108, 108, 93] ∧
    (10 : Nat) ∉ [91, 110, 117, 108, 108, 44, 32, 110, 117, 108, 108, 93] := by
  refine ⟨by decide, by decide⟩

/-- C7 (counterexample) — `ensure` is claimed to fail whenever the resulting
size would exceed `INT_MAX` and never to return a smaller buffer.  Refuted:
from a buffer of length `2^31 - 1` at offset `2^31 - 2`, a request of
`INT_MAX` bytes needs `2^32 - 2` bytes (> INT_MAX), yet `ensure` succeeds —
`pow2gt` wraps the 32-bit pattern to 0 — returning a cursor into a buffer
whose length field is now 0. -/
theorem c7_ensure_wraps_to_zero :
    ((ensure hugePB (2 ^ 31 - 1)).map fun r => (r.1, r.2.length)) =
      some (2 ^ 31 - 2, 0) ∧
    INT_MAX < hugePB.offset + (2 ^ 31 - 1) + 1 ∧
    0 < hugePB.length := by
  refine ⟨by decide, by decide, by decide⟩

/-- C8 (counterexample) — every duplicate is claimed to own freshly
allocated copies of its key, sharing no storage with the original.  Refuted:
for a node whose type carries StringIsConst, `cJSON_Duplicate` copies the
key POINTER itself, so the duplicate's key is the very address (0) owned by
the original. -/
theorem c8_const_key_is_shared :
    (cJSON_Duplicate constKeyNode true constKeyHeap).1.keyPtr = some 0 ∧
    constKeyNode.keyPtr = some 0 ∧
    constKeyHeap.strs.length = 1 := by
  refine ⟨by decide, by decide, by decide⟩

/-- C10 — every public type predicate returns false on a NULL node, and the
two item getters return NULL on a NULL container, so none of these query
operations dereferences a NULL argument. -/
theorem c10_queries_null_safe :
    cJSON_IsInvalid none = false ∧ cJSON_IsFalse none = false ∧
    cJSON_IsTrue none = false ∧ cJSON_IsBool none = false ∧
    cJSON_IsNull none = false ∧ cJSON_IsNumber none = false ∧
    cJSON_IsString none = false ∧ cJSON_IsArray none = false ∧
    cJSON_IsObject none = false ∧ cJSON_IsRaw none = false ∧
    (∀ i : Int, cJSON_GetArrayItem none i = none) ∧
    (∀ k : List Nat, cJSON_GetObjectItem none k = none) := by
  refine ⟨rfl, rfl, rfl, rfl, rfl, rfl, rfl, rfl, rfl, rfl,
    fun i => rfl, fun k => rfl⟩

theorem joinEntries_eq_specJoin (xs : List (List Nat)) (sep : List Nat) :
    joinEntries xs sep = specJoin xs sep := by
  induction xs with
  | nil => simp [joinEntries, specJoin]
  | cons x rest ih =>
    cases rest with
    | nil => simp [joinEntries, specJoin]
    | cons y ys => simp [joinEntries, specJoin, ih]

theorem objectBody_eq_spec (pairs : List (List Nat × List Nat)) (d : Nat)
    (h : pairs ≠ []) :
    objectBody pairs d true =
      tabsOf d ++ specJoin (pairs.map specMember) ([44, 10] ++ tabsOf d) ++
        [10] := by
  induction pairs with
  | nil => exact absurd rfl h
  | cons pr rest ih =>
    cases rest with
    | nil => simp [objectBody, specJoin, specMember, tabsOf]
    | cons pr2 rs =>
      simp only [objectBody, List.isEmpty_cons, if_false, List.map_cons] at *
      rw [ih (by simp)]
      simp [specJoin, specMember, tabsOf, List.append_assoc]

/-- C3 (amended) — pretty layout as the code implements it: a nonempty
object renders as `{`, newline, then the members each indented by
`depth + 1` tabs, consecutive members separated by `,` newline and the same
indentation, and finally newline, `depth` tabs, `}` (an empty object is `{`,
newline, `depth` tabs, `}`); an array, by contrast, stays on one line - its
children are separated by a comma and one space, with no newline and no
indentation. -/
theorem c3_pretty_layout_amended :
    (∀ hd tl depth,
      print_object (.cons hd tl) depth true =
        match object_entries (.cons hd tl) (depth + 1) true with
        | none => none
        | some pairs => some (specPrettyObject pairs depth)) ∧
    (∀ depth,
      print_object .nil depth true =
        some ([123, 10] ++ tabsOf depth ++ [125])) ∧
    (∀ hd tl depth,
      print_array (.cons hd tl) depth true =
        match array_entries (.cons hd tl) depth true with
        | none => none
        | some entries => some ([91] ++ specJoin entries [44, 32] ++ [93])) ∧
    (∀ depth, print_array .nil depth true = some [91, 93]) := by
  refine ⟨?_, ?_, ?_, ?_⟩
  · intro hd tl depth
    simp only [print_object, object_entries]
    cases hps : print_string_ptr hd.keystr with
    | none => rfl
    | some nm =>
      cases hpv : print_value hd (depth + 1) true with
      | none => rfl
      | some e =>
        cases hoe : object_entries tl (depth + 1) true with
        | none => rfl
        | some es =>
          simp only [Option.some.injEq]
          rw [objectBody_eq_spec _ _ (by simp)]
          simp [specPrettyObject, tabsOf, List.append_assoc]
  · intro depth
    simp [print_object, tabsOf, List.append_assoc]
  · intro hd tl depth
    simp only [print_array, array_entries]
    cases hpv : print_value hd (depth + 1) true with
    | none => rfl
    | some e =>
      cases hae : array_entries tl depth true with
      | none => rfl
      | some es => simp [joinEntries_eq_specJoin]
  · intro depth
    rfl

theorem sar32_of_lt (p k : Nat) (h : p < 2 ^ 31) : sar32 p k = p >>> k := by
  rw [sar32, if_pos h]

theorem shiftRight_le_self (a k : Nat) : a >>> k ≤ a := by
  rw [Nat.shiftRight_eq_div_pow]; exact Nat.div_le_self _ _

theorem smearStep_cover (x a w k : Nat) (halt : a < 2 ^ 31) (hk : k ≤ w + 1)
    (ha : ∀ i, a.testBit i = true ↔ ∃ d, d ≤ w ∧ x.testBit (i + d) = true) :
    smearStep a k < 2 ^ 31 ∧
      ∀ i, (smearStep a k).testBit i = true ↔
        ∃ d, d ≤ w + k ∧ x.testBit (i + d) = true := by
  constructor
  · rw [smearStep, sar32_of_lt _ _ halt]
    exact Nat.or_lt_two_pow halt (lt_of_le_of_lt (shiftRight_le_self a k) halt)
  · intro i
    rw [smearStep, sar32_of_lt _ _ halt, Nat.testBit_lor,
      Nat.testBit_shiftRight, Bool.or_eq_true, ha i, ha (k + i)]
    constructor
    · rintro (⟨d, hd, hbit⟩ | ⟨d, hd, hbit⟩)
      · exact ⟨d, by omega, hbit⟩
      · exact ⟨k + d, by omega, by rwa [show i + (k + d) = k + i + d by omega]⟩
    · rintro ⟨d, hd, hbit⟩
      by_cases hdw : d ≤ w
      · exact Or.inl ⟨d, hdw, hbit⟩
      · exact Or.inr ⟨d - k, by omega,
          by rwa [show k + i + (d - k) = i + d by omega]⟩

theorem pow2gt_eq (m : Nat) (h1 : 1 ≤ m) (h2 : m ≤ 2 ^ 31 - 1) :
    pow2gt m = 2 ^ Nat.size (m - 1) := by
  have hx : m - 1 < 2 ^ 31 := by omega
  have hdec : (m + UINT32_MOD - 1) % UINT32_MOD = m - 1 := by
    have : m + UINT32_MOD - 1 = (m - 1) + UINT32_MOD := by
      simp only [UINT32_MOD]; omega
    rw [this, Nat.add_mod_right, Nat.mod_eq_of_lt]
    simp only [UINT32_MOD]; omega
  have base : ∀ i, (m - 1).testBit i = true ↔
      ∃ d, d ≤ 0 ∧ (m - 1).testBit (i + d) = true := by
    intro i
    exact ⟨fun h => ⟨0, le_refl 0, by simpa using h⟩,
      fun ⟨d, hd, h⟩ => by rw [Nat.le_zero] at hd; simpa [hd] using h⟩
  have s1 := smearStep_cover (m - 1) (m - 1) 0 1 hx (by omega) base
  have s2 := smearStep_cover (m - 1) _ 1 2 s1.1 (by omega) s1.2
  have s3 := smearStep_cover (m - 1) _ 3 4 s2.1 (by omega) s2.2
  have s4 := smearStep_cover (m - 1) _ 7 8 s3.1 (by omega) s3.2
  have s5 := smearStep_cover (m - 1) _ 15 16 s4.1 (by omega) s4.2
  have hsize : Nat.size (m - 1) ≤ 31 := Nat.size_le.mpr hx
  have hfull : smearStep (smearStep (smearStep (smearStep (smearStep
      (m - 1) 1) 2) 4) 8) 16 = 2 ^ Nat.size (m - 1) - 1 := by
    apply Nat.eq_of_testBit_eq
    intro i
    rw [Nat.testBit_two_pow_sub_one]
    have hiff : (smearStep (smearStep (smearStep (smearStep (smearStep
        (m - 1) 1) 2) 4) 8) 16).testBit i = true ↔ i < Nat.size (m - 1) := by
      rw [s5.2 i, Nat.lt_size]
      constructor
      · rintro ⟨d, hd, hbit⟩
        calc 2 ^ i ≤ 2 ^ (i + d) := Nat.pow_le_pow_right (by omega) (by omega)
          _ ≤ m - 1 := Nat.testBit_implies_ge hbit
      · intro h2i
        have hne : (m - 1) >>> i ≠ 0 := by
          rw [Nat.shiftRight_eq_div_pow]
          have : 1 ≤ (m - 1) / 2 ^ i := (Nat.one_le_div_iff (by positivity)).mpr h2i
          omega
        obtain ⟨j, hj⟩ := Nat.ne_zero_implies_bit_true hne
        rw [Nat.testBit_shiftRight] at hj
        have hb : 2 ^ (i + j) ≤ m - 1 := Nat.testBit_implies_ge hj
        have hij : i + j < 31 := by
          by_contra hc
          have : 2 ^ 31 ≤ 2 ^ (i + j) := Nat.pow_le_pow_right (by omega) (by omega)
          omega
        exact ⟨j, by omega, hj⟩
    by_cases hlt : i < Nat.size (m - 1)
    · simp [hlt, hiff.mpr hlt]
    · simp only [hlt, decide_False]
      cases h : (smearStep (smearStep (smearStep (smearStep (smearStep
          (m - 1) 1) 2) 4) 8) 16).testBit i with
      | false => rfl
      | true => exact absurd (hiff.mp h) hlt
  have hpow : 2 ^ Nat.size (m - 1) ≤ 2 ^ 31 := Nat.pow_le_pow_right (by omega) hsize
  rw [pow2gt, hdec, hfull]
  have : 2 ^ Nat.size (m - 1) - 1 + 1 = 2 ^ Nat.size (m - 1) := by
    have : 0 < 2 ^ Nat.size (m - 1) := by positivity
    omega
  rw [this, Nat.mod_eq_of_lt]
  simp only [UINT32_MOD]
  omega

/-- C7 (amended) — for every printbuffer whose offset lies inside its
allocation (or whose allocation is empty) and every request `n` with
`offset + n + 1 ≤ INT_MAX`: `ensure` returns the cursor `offset` unchanged
when `offset + n + 1` already fits the current length; otherwise it either
fails (exactly when the least power of two, `2 ^ size (offset + n)`, exceeds
`INT_MAX`) or returns a cursor at `offset` into an allocation whose size is
that least power of two at least `offset + n + 1`, preserving the first
`offset` bytes. -/
theorem c7_ensure_amended (p : printbuffer) (n : Nat)
    (hnorm : p.offset < p.length ∨ p.length = 0)
    (hbound : p.offset + n + 1 ≤ INT_MAX) :
    (p.offset + n + 1 ≤ p.length → ensure p n = some (p.offset, p)) ∧
    (p.length < p.offset + n + 1 →
      (INT_MAX < 2 ^ Nat.size (p.offset + n) → ensure p n = none) ∧
      (2 ^ Nat.size (p.offset + n) ≤ INT_MAX →
        ∃ q, ensure p n = some (p.offset, q) ∧
          q.length = 2 ^ Nat.size (p.offset + n) ∧
          isPow2 q.length ∧ p.offset + n + 1 ≤ q.length ∧
          (∀ k, isPow2 k → p.offset + n + 1 ≤ k → q.length ≤ k) ∧
          q.offset = p.offset ∧
          (∀ i, i < p.offset → q.buffer i = p.buffer i))) := by
  have hIM : INT_MAX = 2 ^ 31 - 1 := rfl
  have hg : ¬(0 < p.length ∧ p.length ≤ p.offset) := by
    rcases hnorm with h | h <;> omega
  have hn : ¬ INT_MAX < n := by omega
  have hmod : (n + p.offset + 1) % SIZE_T_MOD = n + p.offset + 1 := by
    apply Nat.mod_eq_of_lt
    have : SIZE_T_MOD = 2 ^ 64 := rfl
    omega
  have hs2i : size_t_to_int (n + p.offset + 1) = n + p.offset + 1 := by
    rw [size_t_to_int]
    apply Nat.mod_eq_of_lt
    have : UINT32_MOD = 2 ^ 32 := rfl
    omega
  have hp2 : pow2gt (n + p.offset + 1) = 2 ^ Nat.size (p.offset + n) := by
    rw [pow2gt_eq (n + p.offset + 1) (by omega) (by omega),
      show n + p.offset + 1 - 1 = p.offset + n by omega]
  have hsize31 : Nat.size (p.offset + n) ≤ 31 := Nat.size_le.mpr (by omega)
  have hge : p.offset + n + 1 ≤ 2 ^ Nat.size (p.offset + n) :=
    Nat.lt_size_self (p.offset + n)
  have hmin : ∀ k, isPow2 k → p.offset + n + 1 ≤ k →
      2 ^ Nat.size (p.offset + n) ≤ k := by
    rintro k ⟨e, rfl⟩ hk
    exact Nat.pow_le_pow_right (by omega) (Nat.size_le.mpr (by omega))
  constructor
  · intro hfit
    simp only [ensure, if_neg hg, if_neg hn, hmod, if_pos (by omega : n + p.offset + 1 ≤ p.length)]
  · intro hgrow
    have hnofit : ¬ (n + p.offset + 1 ≤ p.length) := by omega
    constructor
    · intro hbig
      have h31 : 2 ^ Nat.size (p.offset + n) = 2 ^ 31 := by
        have hle : 2 ^ Nat.size (p.offset + n) ≤ 2 ^ 31 :=
          Nat.pow_le_pow_right (by omega) hsize31
        omega
      have hi2s : int_to_size_t (pow2gt (size_t_to_int (n + p.offset + 1))) =
          SIZE_T_MOD - UINT32_MOD + 2 ^ 31 := by
        rw [hs2i, hp2, h31, int_to_size_t, if_neg (by omega)]
      simp only [ensure, if_neg hg, if_neg hn, hmod, if_neg hnofit, hi2s,
        if_pos (show INT_MAX < SIZE_T_MOD - UINT32_MOD + 2 ^ 31 by
          have h1 : SIZE_T_MOD = 2 ^ 64 := rfl
          have h2 : UINT32_MOD = 2 ^ 32 := rfl
          omega)]
    · intro hsm
      have hi2s : int_to_size_t (pow2gt (size_t_to_int (n + p.offset + 1))) =
          2 ^ Nat.size (p.offset + n) := by
        rw [hs2i, hp2, int_to_size_t, if_pos (by omega)]
      refine ⟨⟨fun i => if i < p.offset then p.buffer i else none,
          2 ^ Nat.size (p.offset + n), p.offset⟩, ?_, rfl, ⟨_, rfl⟩, hge, hmin,
          rfl, fun i hi => by simp only [if_pos hi]⟩
      simp only [ensure, if_neg hg, if_neg hn, hmod, if_neg hnofit, hi2s,
        if_neg (show ¬ INT_MAX < 2 ^ Nat.size (p.offset + n) by omega)]


/-- C7 witness: growing an empty zero-length buffer by 5 bytes yields the
cursor 0 and the least power of two `8 ≥ 0 + 5 + 1`. -/
theorem c7_ensure_amended_witness :
    ((ensure smallPB 5).map fun r => (r.1, r.2.length)) = some (0, 8) := by
  have hs : Nat.size 5 = 3 := by
    have h1 : Nat.size 5 ≤ 3 := Nat.size_le.mpr (by norm_num)
    have h2 : 2 < Nat.size 5 := Nat.lt_size.mpr (by norm_num)
    omega
  obtain ⟨q, hq, hlen, -, -, -, -, -⟩ :=
    ((c7_ensure_amended smallPB 5 (Or.inr rfl) (by decide)).2 (by decide)).2
      (by norm_num [smallPB, hs, INT_MAX])
  rw [hq]
  simp [hlen, smallPB, hs]

theorem newty_no_ref (ty : Nat) :
    (ty &&& (UINT32_MOD - 1 - cJSON_IsReference)) &&& cJSON_IsReference = 0 := by
  apply Nat.eq_of_testBit_eq
  intro i
  simp only [Nat.testBit_land, Nat.zero_testBit, Bool.and_eq_false_imp]
  intro hty
  rcases eq_or_ne i 8 with rfl | hi
  · have hM : (UINT32_MOD - 1 - cJSON_IsReference).testBit 8 = false := by decide
    simp [hM] at hty
  · have h2 : (cJSON_IsReference).testBit i = false := by
      have he : cJSON_IsReference = 2 ^ 8 := by decide
      rw [he]
      exact Nat.testBit_two_pow_of_ne (Ne.symm hi)
    exact h2

mutual
theorem dup_heap_extends (item : PNode) (recurse : Bool) (h : strHeap) :
    ∃ L, (cJSON_Duplicate item recurse h).2.strs = h.strs ++ L := by
  cases item with
  | mk ty vs ks vi vd children =>
    cases vs with
    | none =>
      cases ks with
      | none =>
        cases recurse with
        | false => exact ⟨[], by simp [cJSON_Duplicate]⟩
        | true =>
          obtain ⟨L, hL⟩ := dupChain_heap_extends children h
          exact ⟨L, by simp [cJSON_Duplicate, hL]⟩
      | some p =>
        by_cases hc : ty &&& cJSON_StringIsConst ≠ 0
        · cases recurse with
          | false => exact ⟨[], by simp [cJSON_Duplicate, hc]⟩
          | true =>
            obtain ⟨L, hL⟩ := dupChain_heap_extends children h
            exact ⟨L, by simp [cJSON_Duplicate, hc, hL]⟩
        · cases recurse with
          | false =>
            exact ⟨[cstr (h.deref p)], by simp [cJSON_Duplicate, hc, strdupH]⟩
          | true =>
            obtain ⟨L, hL⟩ :=
              dupChain_heap_extends children ⟨h.strs ++ [cstr (h.deref p)]⟩
            exact ⟨cstr (h.deref p) :: L,
              by simp [cJSON_Duplicate, hc, strdupH, hL, List.append_assoc]⟩
    | some q =>
      cases ks with
      | none =>
        cases recurse with
        | false => exact ⟨[cstr (h.deref q)], by simp [cJSON_Duplicate, strdupH]⟩
        | true =>
          obtain ⟨L, hL⟩ :=
            dupChain_heap_extends children ⟨h.strs ++ [cstr (h.deref q)]⟩
          exact ⟨cstr (h.deref q) :: L,
            by simp [cJSON_Duplicate, strdupH, hL, List.append_assoc]⟩
      | some p =>
        by_cases hc : ty &&& cJSON_StringIsConst ≠ 0
        · cases recurse with
          | false =>
            exact ⟨[cstr (h.deref q)], by simp [cJSON_Duplicate, hc, strdupH]⟩
          | true =>
            obtain ⟨L, hL⟩ :=
              dupChain_heap_extends children ⟨h.strs ++ [cstr (h.deref q)]⟩
            exact ⟨cstr (h.deref q) :: L,
              by simp [cJSON_Duplicate, hc, strdupH, hL, List.append_assoc]⟩
        · cases recurse with
          | false =>
            refine ⟨cstr (h.deref q) ::
              [cstr (strHeap.deref ⟨h.strs ++ [cstr (h.deref q)]⟩ p)], ?_⟩
            simp [cJSON_Duplicate, hc, strdupH]
          | true =>
            obtain ⟨L, hL⟩ := dupChain_heap_extends children
              ⟨h.strs ++ [cstr (h.deref q),
                cstr (strHeap.deref ⟨h.strs ++ [cstr (h.deref q)]⟩ p)]⟩
            refine ⟨cstr (h.deref q) ::
              cstr (strHeap.deref ⟨h.strs ++ [cstr (h.deref q)]⟩ p) :: L, ?_⟩
            simp only [List.append_assoc, List.cons_append, List.nil_append,
              List.singleton_append] at hL ⊢
            simp [cJSON_Duplicate, hc, strdupH, hL, List.append_assoc]

theorem dupChain_heap_extends (children : PNodeList) (h : strHeap) :
    ∃ L, (dupChain children h).2.strs = h.strs ++ L := by
  cases children with
  | nil => exact ⟨[], by simp [dupChain]⟩
  | cons hd tl =>
    obtain ⟨L1, hL1⟩ := dup_heap_extends hd true h
    obtain ⟨L2, hL2⟩ := dupChain_heap_extends tl (cJSON_Duplicate hd true h).2
    exact ⟨L1 ++ L2, by simp [dupChain, hL2, hL1]⟩
end

theorem dup_heap_mono (item : PNode) (recurse : Bool) (h : strHeap) :
    h.strs.length ≤ (cJSON_Duplicate item recurse h).2.strs.length := by
  obtain ⟨L, hL⟩ := dup_heap_extends item recurse h
  simp [hL]

theorem dup_heap_get (item : PNode) (recurse : Bool) (h : strHeap) (i : Nat)
    (hi : i < h.strs.length) :
    (cJSON_Duplicate item recurse h).2.strs.get? i = h.strs.get? i := by
  obtain ⟨L, hL⟩ := dup_heap_extends item recurse h
  rw [hL, List.get?_append hi]

theorem newty_const_flag (ty : Nat) :
    (ty &&& (UINT32_MOD - 1 - cJSON_IsReference)) &&& cJSON_StringIsConst =
      ty &&& cJSON_StringIsConst := by
  rw [Nat.land_assoc]
  norm_num [show (UINT32_MOD - 1 - cJSON_IsReference) &&& cJSON_StringIsConst =
    cJSON_StringIsConst from by decide]

mutual
theorem dup_fresh (item : PNode) (recurse : Bool) (h : strHeap) (lo : Nat)
    (hlo : lo ≤ h.strs.length) :
    FreshlyOwned lo (cJSON_Duplicate item recurse h).1 := by
  cases item with
  | mk ty vs ks vi vd children =>
    have hch : ∀ h2 : strHeap, lo ≤ h2.strs.length →
        FreshlyOwnedList lo (dupChain children h2).1 := fun h2 hh =>
      dupChain_fresh children h2 lo hh
    cases vs with
    | none =>
      cases ks with
      | none =>
        cases recurse with
        | false =>
          simp [cJSON_Duplicate, FreshlyOwned, FreshlyOwnedList, newty_no_ref ty]
        | true =>
          simp [cJSON_Duplicate, FreshlyOwned, newty_no_ref ty, hch h hlo]
      | some p =>
        by_cases hc : ty &&& cJSON_StringIsConst ≠ 0
        · cases recurse with
          | false =>
            simp only [cJSON_Duplicate, strdupH, if_pos hc]
            exact ⟨newty_no_ref ty, by simp,
              fun p' hp' => Or.inl (by rw [newty_const_flag ty]; exact hc),
              trivial⟩
          | true =>
            simp only [cJSON_Duplicate, strdupH, if_pos hc]
            exact ⟨newty_no_ref ty, by simp,
              fun p' hp' => Or.inl (by rw [newty_const_flag ty]; exact hc),
              hch h hlo⟩
        · cases recurse with
          | false =>
            simp only [cJSON_Duplicate, strdupH, if_neg hc]
            exact ⟨newty_no_ref ty, by simp,
              fun p' hp' => Or.inr (by injection hp' with hh; omega), trivial⟩
          | true =>
            simp only [cJSON_Duplicate, strdupH, if_neg hc]
            exact ⟨newty_no_ref ty, by simp,
              fun p' hp' => Or.inr (by injection hp' with hh; omega),
              hch ⟨h.strs ++ [cstr (h.deref p)]⟩ (by simp; omega)⟩
    | some q =>
      cases ks with
      | none =>
        cases recurse with
        | false =>
          simp only [cJSON_Duplicate, strdupH]
          exact ⟨newty_no_ref ty,
            fun p' hp' => by injection hp' with hh; omega,
            by simp, trivial⟩
        | true =>
          simp only [cJSON_Duplicate, strdupH]
          exact ⟨newty_no_ref ty,
            fun p' hp' => by injection hp' with hh; omega,
            by simp,
            hch ⟨h.strs ++ [cstr (h.deref q)]⟩ (by simp; omega)⟩
      | some p =>
        by_cases hc : ty &&& cJSON_StringIsConst ≠ 0
        · cases recurse with
          | false =>
            simp only [cJSON_Duplicate, strdupH, if_pos hc]
            exact ⟨newty_no_ref ty,
              fun p' hp' => by injection hp' with hh; omega,
              fun p' hp' => Or.inl (by rw [newty_const_flag ty]; exact hc),
              trivial⟩
          | true =>
            simp only [cJSON_Duplicate, strdupH, if_pos hc]
            exact ⟨newty_no_ref ty,
              fun p' hp' => by injection hp' with hh; omega,
              fun p' hp' => Or.inl (by rw [newty_const_flag ty]; exact hc),
              hch ⟨h.strs ++ [cstr (h.deref q)]⟩ (by simp; omega)⟩
        · cases recurse with
          | false =>
            simp only [cJSON_Duplicate, strdupH, if_neg hc]
            exact ⟨newty_no_ref ty,
              fun p' hp' => by injection hp' with hh; omega,
              fun p' hp' => Or.inr (by injection hp' with hh; simp at hh; omega),
              trivial⟩
          | true =>
            simp only [cJSON_Duplicate, strdupH, if_neg hc]
            exact ⟨newty_no_ref ty,
              fun p' hp' => by injection hp' with hh; omega,
              fun p' hp' => Or.inr (by injection hp' with hh; simp at hh; omega),
              hch ⟨(h.strs ++ [cstr (h.deref q)]) ++
                [cstr (strHeap.deref ⟨h.strs ++ [cstr (h.deref q)]⟩ p)]⟩
                (by simp; omega)⟩

theorem dupChain_fresh (children : PNodeList) (h : strHeap) (lo : Nat)
    (hlo : lo ≤ h.strs.length) :
    FreshlyOwnedList lo (dupChain children h).1 := by
  cases children with
  | nil => simp [dupChain, FreshlyOwnedList]
  | cons hd tl =>
    have h1 := dup_fresh hd true h lo hlo
    have h2 := dupChain_fresh tl (cJSON_Duplicate hd true h).2 lo
      (le_trans hlo (dup_heap_mono hd true h))
    simp only [dupChain]
    exact ⟨h1, h2⟩
end

theorem dup_const_key (item : PNode) (recurse : Bool) (h : strHeap)
    (hc : item.ty &&& cJSON_StringIsConst ≠ 0) :
    (cJSON_Duplicate item recurse h).1.keyPtr = item.keyPtr := by
  cases item with
  | mk ty vs ks vi vd children =>
    simp only [PNode.ty] at hc
    cases vs <;> cases ks <;> cases recurse <;>
      simp [cJSON_Duplicate, strdupH, if_pos hc, PNode.keyPtr]

theorem dup_vs_first (ty : Nat) (ks : Option Nat) (vi : Int) (vd : ℚ)
    (children : PNodeList) (recurse : Bool) (h : strHeap) (p : Nat) :
    ∃ L, (cJSON_Duplicate (.mk ty (some p) ks vi vd children) recurse h).2.strs =
      h.strs ++ cstr (h.deref p) :: L := by
  cases ks with
  | none =>
    cases recurse with
    | false => exact ⟨[], by simp [cJSON_Duplicate, strdupH]⟩
    | true =>
      obtain ⟨L, hL⟩ :=
        dupChain_heap_extends children ⟨h.strs ++ [cstr (h.deref p)]⟩
      exact ⟨L, by simp [cJSON_Duplicate, strdupH, hL, List.append_assoc]⟩
  | some k =>
    by_cases hc : ty &&& cJSON_StringIsConst ≠ 0
    · cases recurse with
      | false => exact ⟨[], by simp [cJSON_Duplicate, strdupH, if_pos hc]⟩
      | true =>
        obtain ⟨L, hL⟩ :=
          dupChain_heap_extends children ⟨h.strs ++ [cstr (h.deref p)]⟩
        exact ⟨L,
          by simp [cJSON_Duplicate, strdupH, if_pos hc, hL, List.append_assoc]⟩
    · cases recurse with
      | false =>
        exact ⟨[cstr (strHeap.deref ⟨h.strs ++ [cstr (h.deref p)]⟩ k)],
          by simp [cJSON_Duplicate, strdupH, if_neg hc]⟩
      | true =>
        obtain ⟨L, hL⟩ := dupChain_heap_extends children
          ⟨h.strs ++ [cstr (h.deref p),
            cstr (strHeap.deref ⟨h.strs ++ [cstr (h.deref p)]⟩ k)]⟩
        refine ⟨cstr (strHeap.deref ⟨h.strs ++ [cstr (h.deref p)]⟩ k) :: L, ?_⟩
        simp only [List.append_assoc, List.cons_append, List.nil_append,
          List.singleton_append] at hL ⊢
        simp [cJSON_Duplicate, strdupH, if_neg hc, hL, List.append_assoc]

theorem dup_vs_content (ty : Nat) (ks : Option Nat) (vi : Int) (vd : ℚ)
    (children : PNodeList) (recurse : Bool) (h : strHeap) (p : Nat) :
    ∃ q, (cJSON_Duplicate (.mk ty (some p) ks vi vd children) recurse h).1.vsPtr =
        some q ∧
      h.strs.length ≤ q ∧
      (cJSON_Duplicate (.mk ty (some p) ks vi vd children) recurse h).2.deref q =
        cstr (h.deref p) := by
  refine ⟨h.strs.length, ?_, le_refl _, ?_⟩
  · cases ks with
    | none =>
      cases recurse <;> simp [cJSON_Duplicate, strdupH, PNode.vsPtr]
    | some k =>
      by_cases hc : ty &&& cJSON_StringIsConst ≠ 0 <;>
        cases recurse <;>
          simp [cJSON_Duplicate, strdupH, PNode.vsPtr, hc]
  · obtain ⟨L, hL⟩ := dup_vs_first ty ks vi vd children recurse h p
    rw [strHeap.deref, hL, List.get?_append_right (le_refl _)]
    simp

/-- C8 (amended) — a duplicate (deep or shallow) never carries the
IsReference flag anywhere in the copied tree; every string payload it
allocates (`valuestring` everywhere, the key unless StringIsConst) is a
fresh heap address at or beyond the allocation frontier, so it shares no
storage with any pre-existing string; a StringIsConst key, however, is the
SAME address as the original's (borrowed); and the duplicated `valuestring`
is a fresh copy of the original's C-string content. -/
theorem c8_duplicate_amended (item : PNode) (h : strHeap) :
    FreshlyOwned h.strs.length (cJSON_Duplicate item true h).1 ∧
    FreshlyOwned h.strs.length (cJSON_Duplicate item false h).1 ∧
    (item.ty &&& cJSON_StringIsConst ≠ 0 →
      (cJSON_Duplicate item true h).1.keyPtr = item.keyPtr) ∧
    (∀ p, item.vsPtr = some p →
      ∃ q, (cJSON_Duplicate item true h).1.vsPtr = some q ∧
        h.strs.length ≤ q ∧
        (cJSON_Duplicate item true h).2.deref q = cstr (h.deref p)) := by
  refine ⟨dup_fresh item true h _ (le_refl _),
    dup_fresh item false h _ (le_refl _),
    fun hc => dup_const_key item true h hc, fun p hp => ?_⟩
  cases item with
  | mk ty vs ks vi vd children =>
    simp only [PNode.vsPtr] at hp
    subst hp
    exact dup_vs_content ty ks vi vd children true h p

/-- C8 witness: instantiating the amended theorem at the concrete
StringIsConst-keyed node shows the duplicate's key pointer is propagated
unchanged. -/
theorem c8_duplicate_amended_witness :
    (cJSON_Duplicate constKeyNode true constKeyHeap).1.keyPtr =
      constKeyNode.keyPtr :=
  (c8_duplicate_amended constKeyNode constKeyHeap).2.2.1 (by decide)

theorem parse_string_ep (item : CJson) (str : Nat) (st : parseState) :
    (parse_string item str st).1.isSome = true →
      (parse_string item str st).2.2.ep = st.ep := by
  rw [parse_string]
  split
  · simp
  · dsimp only
    split
    · simp
    · intro hh
      rfl

theorem parse_ep_preserved (fuel : Nat) :
    (∀ item value st, (parse_value fuel item value st).1.isSome = true →
      (parse_value fuel item value st).2.2.ep = st.ep) ∧
    (∀ item pos st, (parse_array fuel item pos st).1.isSome = true →
      (parse_array fuel item pos st).2.2.ep = st.ep) ∧
    (∀ acc item value st, (array_loop fuel acc item value st).1.isSome = true →
      (array_loop fuel acc item value st).2.2.ep = st.ep) ∧
    (∀ item pos st, (parse_object fuel item pos st).1.isSome = true →
      (parse_object fuel item pos st).2.2.ep = st.ep) ∧
    (∀ acc item value st, (object_loop fuel acc item value st).1.isSome = true →
      (object_loop fuel acc item value st).2.2.ep = st.ep) := by
  induction fuel with
  | zero =>
    exact ⟨fun i v s => by simp [parse_value],
      fun i p s => by simp [parse_array],
      fun a i v s => by simp [array_loop],
      fun i p s => by simp [parse_object],
      fun a i v s => by simp [object_loop]⟩
  | succ fuel ih =>
    obtain ⟨ihv, iha, ihal, iho, ihol⟩ := ih
    refine ⟨?_, ?_, ?_, ?_, ?_⟩
    · intro item value st
      cases value with
      | none => simp [parse_value]
      | some pos =>
        simp only [parse_value]
        split
        · intro _; rfl
        · split
          · intro _; rfl
          · split
            · intro _; rfl
            · split
              · exact parse_string_ep item pos st
              · split
                · intro _
                  rcases hpn : parse_number item pos st.input with ⟨p2, it2⟩
                  rfl
                · split
                  · exact iha item pos st
                  · split
                    · exact iho item pos st
                    · simp
    · intro item pos st
      simp only [parse_array]
      split
      · simp
      · split
        · intro _; rfl
        · split
          · simp
          · rename_i v child st2 heq
            intro hh
            have h1 := ihal (CJsonList.cons child .nil) (setType item cJSON_Array)
              (skip st2.input v) st2 hh
            rw [h1]
            have h2 := ihv _ _ _ (by rw [heq]; rfl)
            rw [heq] at h2
            exact h2
    · intro acc item value st
      simp only [array_loop]
      split
      · split
        · intro _; rfl
        · split
          · simp
          · rename_i v child st2 heq
            intro hh
            have h1 := ihal (acc.snoc child) item (skip st2.input v) st2 hh
            rw [h1]
            have h2 := ihv _ _ _ (by rw [heq]; rfl)
            rw [heq] at h2
            exact h2
      · split
        · intro _; rfl
        · simp
    · intro item pos st
      simp only [parse_object]
      split
      · simp
      · split
        · intro _; rfl
        · split
          · simp
          · rename_i v child st2 heq
            have hse := parse_string_ep newItem
              (skip st.input (skip st.input (pos + 1)))
              { st with allocs := st.allocs + 1 }
            rw [heq] at hse
            split
            · simp
            · split
              · simp
              · rename_i v2 child2 st3 heq2
                intro hh
                have h1 := ihol (CJsonList.cons child2 .nil)
                  (setType item cJSON_Object) (skip st3.input v2) st3 hh
                rw [h1]
                have h2 := ihv _ _ _ (by rw [heq2]; rfl)
                rw [heq2] at h2
                rw [h2]
                exact hse rfl
    · intro acc item value st
      simp only [object_loop]
      split
      · split
        · intro _; rfl
        · split
          · simp
          · rename_i v child st2 heq
            have hse := parse_string_ep newItem
              (skip st.input (skip st.input (value + 1)))
              { st with allocs := st.allocs + 1 }
            rw [heq] at hse
            split
            · simp
            · split
              · simp
              · rename_i v2 child2 st3 heq2
                intro hh
                have h1 := ihol (acc.snoc child2) item (skip st3.input v2) st3 hh
                rw [h1]
                have h2 := ihv _ _ _ (by rw [heq2]; rfl)
                rw [heq2] at h2
                rw [h2]
                exact hse rfl
      · split
        · intro _; rfl
        · simp

/-- C9 — on a parse failure the entry point returns no tree and the shared
error marker points at the offending byte (for `{bad}`: index 1, the letter
`b`), `cJSON_ParseWithOpts` itself frees the partially built tree (both
allocated nodes are freed by the automatic `cJSON_Delete`), and on any
successful `cJSON_Parse` the marker is null. -/
theorem c9_parse_failure_semantics :
    (∀ value fuel, (cJSON_Parse value fuel).tree.isSome = true →
      (cJSON_Parse value fuel).ep = none) ∧
    (cJSON_Parse badObjInput 99).tree.isNone = true ∧
    (cJSON_Parse badObjInput 99).ep = some 1 ∧
    getByte badObjInput 1 = 98 ∧
    (cJSON_Parse badObjInput 99).allocs = 2 ∧
    (cJSON_Parse badObjInput 99).freed = 2 := by
  refine ⟨?_, by decide, by decide, by decide, by decide, by decide⟩
  intro value fuel
  simp only [cJSON_Parse, cJSON_ParseWithOpts]
  split
  · simp
  · rename_i pe c st' heq
    simp only [Bool.false_eq_true, if_false]
    intro _
    have h2 := (parse_ep_preserved fuel).1 newItem (some (skip value 0))
      ⟨value, none, 1⟩ (by rw [heq]; rfl)
    rw [heq] at h2
    exact h2

/-- C9 witness: the text `1` parses successfully and leaves the error marker
null. -/
theorem c9_parse_failure_semantics_witness : (cJSON_Parse [49] 20).ep = none :=
  c9_parse_failure_semantics.1 [49] 20 (by decide)
